import Mathlib

/-!
# Verification of the Modular Prospecting Model's filtering, scoring and parsing core

This file gives a shallow embedding, in Lean, of the deterministic core of the
prospecting pipeline (noise filter, ICP scoring, fit categorization, LLM response
field parsing, ranking sort), translated from `filter_module.py`, `ai_module.py`,
`output_module.py` and `ModularProspectingModel1.py`, and proves the spec's
claims about it.

Python numbers are modelled as rationals (every numeric literal and every
arithmetic step in the embedded code is a small multiple of 1/2, hence exact in
binary floating point, so `ℚ` is a faithful model of the float arithmetic
actually performed).  Python dictionary fields that may be absent are modelled
with `Option`.  A Python runtime value that is fed to `float(...)` either
converts (modelled by `PyVal.vnum` carrying the converted rational) or raises
`TypeError`/`ValueError` (modelled by `PyVal.vnone` for `None` and
`PyVal.vother` for any other non-numeric value).
-/

namespace Prospect

/-- A Python value as seen by `_to_float`: `None`, a value `float(...)` accepts
(numbers and numeric strings, carried as the converted rational), or any other
value on which `float(...)` raises. -/
inductive PyVal where
  | vnone : PyVal
  | vnum : ℚ → PyVal
  | vother : PyVal
  deriving DecidableEq, Repr

/-- `FilterModule._to_float` (filter_module.py:20-25): `float(v)` with
`None`/non-numeric falling back to the default. -/
def toFloat (v : PyVal) (default : ℚ) : ℚ :=
  match v with
  | .vnum q => q
  | _ => default

/-- `dict.get(key)` with no default: an absent key behaves like a stored `None`. -/
def pyGet (o : Option PyVal) : PyVal := o.getD .vnone

/-- `dict.get(key, '')` for string-valued fields. -/
def getStr (o : Option String) : String := o.getD ""

/-! ## String primitives

Python's `str` operations used by the source, re-implemented structurally over
`String.data` (so that they are kernel-evaluable on concrete inputs):
`in` (substring test), `.lower()`, `.strip()`, `.startswith(p)`,
`.split('\n')` and `.replace(pat, '')` (which removes **all** occurrences). -/

/-- Substring occurrence: `containsSub needle hay = true` iff `needle` occurs as
a contiguous sublist of `hay` (Python `needle in hay`; the empty needle always
occurs). -/
def containsSub (needle : List Char) : List Char → Bool
  | [] => needle.isEmpty
  | c :: t => needle.isPrefixOf (c :: t) || containsSub needle t

/-- Python `needle in hay` on strings. -/
def pyIn (needle hay : String) : Bool := containsSub needle.data hay.data

/-- Python `s.lower()` (ASCII case folding, as used on the source's ASCII data). -/
def strLower (s : String) : String := ⟨s.data.map Char.toLower⟩

/-- Python `s.startswith(p)`. -/
def pyStartsWith (s p : String) : Bool := p.data.isPrefixOf s.data

/-- Python `s.strip()`: drop whitespace from both ends. -/
def strTrim (s : String) : String :=
  ⟨((s.data.dropWhile Char.isWhitespace).reverse.dropWhile Char.isWhitespace).reverse⟩

/-- Split a character list at every occurrence of `c` (Python `s.split(c)` for a
single-character separator). -/
def splitOnChar (c : Char) : List Char → List (List Char)
  | [] => [[]]
  | d :: ds =>
    let r := splitOnChar c ds
    if d = c then [] :: r
    else
      match r with
      | [] => [[d]]
      | h :: t => (d :: h) :: t

/-- Python `text.split('\n')`. -/
def splitLines (s : String) : List String :=
  (splitOnChar '\n' s.data).map fun l => ⟨l⟩

/-- One fuel-indexed step of `str.replace(pat, '')`: scan left to right,
deleting every (non-overlapping) occurrence of `pat`.  The fuel is an upper
bound on the number of characters still to be consumed; `removeAll` supplies
`l.length`, which suffices because each recursive call consumes at least one
character (the pattern is nonempty at every call site). -/
def removeAllGo (pat : List Char) : Nat → List Char → List Char
  | _, [] => []
  | 0, l => l
  | fuel + 1, c :: cs =>
    if pat.isPrefixOf (c :: cs) then removeAllGo pat fuel (List.drop (pat.length - 1) cs)
    else c :: removeAllGo pat fuel cs

/-- `str.replace(pat, '')` on character lists (Python replaces all occurrences;
an empty pattern with an empty replacement is the identity). -/
def removeAll (pat l : List Char) : List Char :=
  if pat.isEmpty then l else removeAllGo pat l.length l

/-- Python `s.replace(pat, '')` on strings. -/
def strRemoveAll (pat s : String) : String := ⟨removeAll pat.data s.data⟩

/-! ## The record -/

/-- A business record (a Python dict) with the fields the embedded core reads
and writes.  `none` on an `Option` field models an absent key (for
`rating`/`user_ratings_total`, an absent key and a stored `None` are both
reachable in the source and behave identically through `dict.get`, so both are
modelled by `pyGet` returning `PyVal.vnone`).  `website_required_score`
defaults to `0`, matching `company.get('website_required_score', 0)`. -/
structure Company where
  name : Option String := none
  types : Option String := none
  keyword_used : Option String := none
  state : Option String := none
  rating : Option PyVal := none
  user_ratings_total : Option PyVal := none
  website_valid : Bool := false
  website_required_score : ℚ := 0
  score_breakdown : List (String × ℚ) := []
  fit_category : Option String := none
  icp_score : Option ℚ := none
  ai_fit_category : Option String := none
  deriving DecidableEq, Repr

/-- `company.get('state') in self.us_states` (`None in set` is `False`). -/
def stateIn (us : List String) : Option String → Bool
  | some s => us.contains s
  | none => false

/-! ## Noise filter (`FilterModule.filter_noise`, filter_module.py:27-62) -/

/-- The per-record exclusion test of `filter_noise`: excluded business type term
in the lowercased `types` string, OR negative keyword in the lowercased `name`,
OR coerced review count strictly below the minimum. -/
def shouldExcludeNoise (excludedTypes negativeKeywords : List String) (minReviewCount : ℚ)
    (c : Company) : Bool :=
  (excludedTypes.any fun t => pyIn t (strLower (getStr c.types)))
    || (negativeKeywords.any fun t => pyIn t (strLower (getStr c.name)))
    || decide (toFloat (pyGet c.user_ratings_total) 0 < minReviewCount)

/-- The accumulator loop of `filter_noise` (survivors are appended in input
order). -/
def filterNoiseGo (excludedTypes negativeKeywords : List String) (minReviewCount : ℚ) :
    List Company → List Company → List Company
  | [], acc => acc
  | c :: cs, acc =>
    if shouldExcludeNoise excludedTypes negativeKeywords minReviewCount c then
      filterNoiseGo excludedTypes negativeKeywords minReviewCount cs acc
    else
      filterNoiseGo excludedTypes negativeKeywords minReviewCount cs (acc ++ [c])

/-- `FilterModule.filter_noise`. -/
def filterNoise (excludedTypes negativeKeywords : List String) (minReviewCount : ℚ)
    (companies : List Company) : List Company :=
  filterNoiseGo excludedTypes negativeKeywords minReviewCount companies []

/-! ## Legacy ICP admission scoring (`FilterModule.filter_by_icp_criteria`,
filter_module.py:152-191) -/

/-- The configurable weights read via `icp_weights.get(name, default)`; the
structure's fields stand for whatever the scoring configuration supplies, the
named defaults being `us_location 1, high_rating 1, good_rating 0.5,
business_type 1, industry_keyword 2, size_keyword 1`. -/
structure IcpWeights where
  us_location : ℚ
  high_rating : ℚ
  good_rating : ℚ
  business_type : ℚ
  industry_keyword : ℚ
  size_keyword : ℚ
  deriving DecidableEq, Repr

/-- The default ICP weights (`.get` fallback values in the source). -/
def defaultIcpWeights : IcpWeights :=
  { us_location := 1, high_rating := 1, good_rating := 1/2, business_type := 1
    industry_keyword := 2, size_keyword := 1 }

/-- The sequential score accumulation inside the `filter_by_icp_criteria` loop
body. -/
def icpScoreOf (w : IcpWeights) (us : List String) (c : Company) : ℚ :=
  let s : ℚ := 0
  let s := if stateIn us c.state then s + w.us_location else s
  let s :=
    if pyGet c.rating ≠ PyVal.vnone then
      let rf := toFloat (pyGet c.rating) 0
      if (7:ℚ)/2 ≤ rf then s + w.high_rating
      else if (3:ℚ) ≤ rf then s + w.good_rating
      else s
    else s
  let s :=
    if ["establishment", "business"].any (fun k => pyIn k (strLower (getStr c.types))) then
      s + w.business_type
    else s
  let s :=
    if ["medical", "manufacturing", "defense", "consulting"].any
        (fun k => pyIn k (strLower (getStr c.keyword_used))) then
      s + w.industry_keyword
    else if ["small", "startup", "boutique", "specialized"].any
        (fun k => pyIn k (strLower (getStr c.keyword_used))) then
      s + w.size_keyword
    else s
  s

/-- The accumulator loop of `filter_by_icp_criteria`: a company is appended
(with `icp_score` set) exactly when its score reaches `min_icp_score`. -/
def filterByIcpCriteriaGo (w : IcpWeights) (minIcpScore : ℚ) (us : List String) :
    List Company → List Company → List Company
  | [], acc => acc
  | c :: cs, acc =>
    let s := icpScoreOf w us c
    if minIcpScore ≤ s then
      filterByIcpCriteriaGo w minIcpScore us cs (acc ++ [{ c with icp_score := some s }])
    else
      filterByIcpCriteriaGo w minIcpScore us cs acc

/-- `FilterModule.filter_by_icp_criteria`. -/
def filterByIcpCriteria (w : IcpWeights) (minIcpScore : ℚ) (us : List String)
    (companies : List Company) : List Company :=
  filterByIcpCriteriaGo w minIcpScore us companies []

/-! ## Website-required ICP scoring
(`FilterModule.calculate_website_required_score`, filter_module.py:193-249) -/

/-- The configurable `website_required_weights` read via `.get(name, default)`,
defaults `industry_match 3, website_required 2, high_rating 2, good_rating 1,
size_indicator 1, us_location 1, business_type 1`. -/
structure WRWeights where
  industry_match : ℚ
  website_required : ℚ
  high_rating : ℚ
  good_rating : ℚ
  size_indicator : ℚ
  us_location : ℚ
  business_type : ℚ
  deriving DecidableEq, Repr

/-- The default `website_required_weights`. -/
def defaultWRWeights : WRWeights :=
  { industry_match := 3, website_required := 2, high_rating := 2, good_rating := 1
    size_indicator := 1, us_location := 1, business_type := 1 }

/-- The configurable `rating_thresholds`, defaults `high_rating 3.5,
high_reviews 10, good_rating 3.0, good_reviews 5`. -/
structure RatingThresholds where
  high_rating : ℚ
  high_reviews : ℚ
  good_rating : ℚ
  good_reviews : ℚ
  deriving DecidableEq, Repr

/-- The default `rating_thresholds`. -/
def defaultRatingThresholds : RatingThresholds :=
  { high_rating := 7/2, high_reviews := 10, good_rating := 3, good_reviews := 5 }

/-- Python `int(q)` on a float: truncation toward zero. -/
def intTrunc (q : ℚ) : ℤ := if 0 ≤ q then ⌊q⌋ else -⌊-q⌋

/-- The six core industry keywords hardcoded in
`calculate_website_required_score`. -/
def coreKeywords : List String :=
  ["medical", "manufacturing", "defense", "consulting", "engineering", "biotech"]

/-- The size-indicator keywords hardcoded in
`calculate_website_required_score`. -/
def sizeKeywords : List String :=
  ["small", "boutique", "specialized", "startup", "family-owned"]

/-- `FilterModule.calculate_website_required_score`: the six additive rules, in
source order, each appending its `(rule name, points)` pair to the breakdown.
Note the `good_rating` branch: the running score adds the configured
`good_rating` weight while the breakdown entry stores the literal `1`
(filter_module.py:226-227). -/
def calculateWebsiteRequiredScore (w : WRWeights) (t : RatingThresholds) (us : List String)
    (c : Company) : Company :=
  let keyword := strLower (getStr c.keyword_used)
  let s0 : ℚ := 0
  let b0 : List (String × ℚ) := []
  let p1 := if coreKeywords.any fun k => pyIn k keyword then
      (s0 + w.industry_match, b0 ++ [("industry_match", w.industry_match)])
    else (s0, b0)
  let p2 := if c.website_valid then
      (p1.1 + w.website_required, p1.2 ++ [("website_required", w.website_required)])
    else p1
  let rating := toFloat (pyGet c.rating) 0
  let reviews : ℤ := intTrunc (toFloat (pyGet c.user_ratings_total) 0)
  let p3 := if t.high_rating ≤ rating ∧ t.high_reviews ≤ (reviews : ℚ) then
      (p2.1 + w.high_rating, p2.2 ++ [("high_rating", w.high_rating)])
    else if t.good_rating ≤ rating ∧ t.good_reviews ≤ (reviews : ℚ) then
      (p2.1 + w.good_rating, p2.2 ++ [("good_rating", (1 : ℚ))])
    else p2
  let p4 := if sizeKeywords.any fun k => pyIn k keyword then
      (p3.1 + w.size_indicator, p3.2 ++ [("size_indicator", w.size_indicator)])
    else p3
  let p5 := if stateIn us c.state then
      (p4.1 + w.us_location, p4.2 ++ [("us_location", w.us_location)])
    else p4
  let types := strLower (getStr c.types)
  let p6 := if pyIn "establishment" types ∧ pyIn "business" types then
      (p5.1 + w.business_type, p5.2 ++ [("business_type", w.business_type)])
    else p5
  { c with website_required_score := p6.1, score_breakdown := p6.2 }

/-! ## Fit categorization (`FilterModule.categorize_by_website_required_fit`,
filter_module.py:251-281) -/

/-- Tag a company with a fit category (the in-place
`company['fit_category'] = ...` mutation before appending to a bucket). -/
def setFit (fit : String) (c : Company) : Company := { c with fit_category := some fit }

/-- `FilterModule.categorize_by_website_required_fit`: first matching threshold
wins, checked high → medium → low; a score below the low threshold is dropped. -/
def categorizeByWebsiteRequiredFit (highT mediumT lowT : ℚ) :
    List Company → List Company × List Company × List Company
  | [] => ([], [], [])
  | c :: cs =>
    let r := categorizeByWebsiteRequiredFit highT mediumT lowT cs
    if highT ≤ c.website_required_score then
      (setFit "High Fit" c :: r.1, r.2.1, r.2.2)
    else if mediumT ≤ c.website_required_score then
      (r.1, setFit "Medium Fit" c :: r.2.1, r.2.2)
    else if lowT ≤ c.website_required_score then
      (r.1, r.2.1, setFit "Low Fit" c :: r.2.2)
    else r

/-! ## LLM response field parsing (`AIModule._parse_ai_evaluation_fields`,
ai_module.py:100-148) -/

/-- The `fields` dict built by the parser: it only ever holds the four known
keys, so it is modelled as four optional slots (a `none` slot is an absent
key). -/
structure AIFields where
  ai_fit_category : Option String := none
  ai_reasoning : Option String := none
  ai_people_assessment : Option String := none
  ai_revenue_assessment : Option String := none
  deriving DecidableEq, Repr

/-- The per-line branch chain of the parser's loop: strip the line, match the
four labels in an `if`/`elif` chain, `str.replace` the label away (all
occurrences), strip, and store; the `ai_fit_category` value is reduced to
High/Medium/Low/Unknown by substring scan in that priority order. -/
def parseStep (acc : AIFields) (rawLine : String) : AIFields :=
  let line := strTrim rawLine
  if pyStartsWith line "ai_fit_category:" then
    let content := strTrim (strRemoveAll "ai_fit_category:" line)
    let v := if pyIn "High" content then "High"
      else if pyIn "Medium" content then "Medium"
      else if pyIn "Low" content then "Low"
      else "Unknown"
    { acc with ai_fit_category := some v }
  else if pyStartsWith line "ai_reasoning:" then
    { acc with ai_reasoning := some (strTrim (strRemoveAll "ai_reasoning:" line)) }
  else if pyStartsWith line "ai_people_assessment:" then
    { acc with ai_people_assessment := some (strTrim (strRemoveAll "ai_people_assessment:" line)) }
  else if pyStartsWith line "ai_revenue_assessment:" then
    { acc with ai_revenue_assessment := some (strTrim (strRemoveAll "ai_revenue_assessment:" line)) }
  else acc

/-- `AIModule._parse_ai_evaluation_fields`: empty input returns the empty dict;
otherwise the line loop runs and the four defaults are filled in for any key
never set.  Total (never raises). -/
def parseAIEvaluationFields (text : String) : AIFields :=
  if text = "" then {}
  else
    let f := (splitLines text).foldl parseStep {}
    { ai_fit_category := some (f.ai_fit_category.getD "Unknown")
      ai_reasoning := some (f.ai_reasoning.getD "Not evaluated")
      ai_people_assessment := some (f.ai_people_assessment.getD "Not enough data")
      ai_revenue_assessment := some (f.ai_revenue_assessment.getD "Unknown") }

/-! ## Ranking sort (ModularProspectingModel1.py:772-775)

`evaluated_companies.sort(key=lambda x: (category_order.get(x.get('ai_fit_category',
'Unknown'), 0), x.get('rating', 0)), reverse=True)` — Python's `list.sort` is a
stable sort; with `reverse=True` it orders keys descending while equal-key
elements keep their original relative order.  `sortByFitThenRating` below is a
stable insertion sort with exactly that ordering, hence computes the same list. -/

/-- `category_order.get(x.get('ai_fit_category', 'Unknown'), 0)` with
`category_order = {'High': 3, 'Medium': 2, 'Low': 1, 'Unknown': 0}`. -/
def fitOrdinal (c : Company) : ℕ :=
  match c.ai_fit_category.getD "Unknown" with
  | "High" => 3
  | "Medium" => 2
  | "Low" => 1
  | _ => 0

/-- `x.get('rating', 0)` as used by the sort key.  The source compares this
value numerically, which is well defined when every present rating is numeric
(the theorems below assume exactly that); the `vother`/`vnone` case is given an
arbitrary value. -/
def ratingKey (c : Company) : ℚ :=
  match c.rating with
  | some (.vnum q) => q
  | _ => 0

/-- The tuple sort key. -/
def sortKey (c : Company) : ℕ × ℚ := (fitOrdinal c, ratingKey c)

/-- Lexicographic `b ≤ a` on sort keys: `a` may come before `b` in the
descending order. -/
def keyGE (a b : ℕ × ℚ) : Prop := b.1 < a.1 ∨ (a.1 = b.1 ∧ b.2 ≤ a.2)

instance : DecidablePred fun p : (ℕ × ℚ) × ℕ × ℚ => keyGE p.1 p.2 := by
  intro p; unfold keyGE; infer_instance

instance (a b : ℕ × ℚ) : Decidable (keyGE a b) := by unfold keyGE; infer_instance

/-- Insert `x` after every element with a strictly greater key and before every
element with a key `≤` its own (the position a stable descending sort gives an
element relative to an already-sorted suffix list). -/
def insertDesc (x : Company) : List Company → List Company
  | [] => [x]
  | y :: ys =>
    if keyGE (sortKey x) (sortKey y) then x :: y :: ys
    else y :: insertDesc x ys

/-- The stable descending sort: Python's
`list.sort(key=sortKey, reverse=True)`. -/
def sortByFitThenRating : List Company → List Company
  | [] => []
  | x :: xs => insertDesc x (sortByFitThenRating xs)

/-! ## Helper lemmas: noise filter -/

theorem filterNoiseGo_acc (ex neg : List String) (mr : ℚ) :
    ∀ (l acc : List Company),
      filterNoiseGo ex neg mr l acc = acc ++ filterNoiseGo ex neg mr l []
  | [], acc => by simp [filterNoiseGo]
  | c :: cs, acc => by
    by_cases h : shouldExcludeNoise ex neg mr c
    · simp only [filterNoiseGo, h, if_true]
      exact filterNoiseGo_acc ex neg mr cs acc
    · simp only [filterNoiseGo, h, Bool.false_eq_true, if_false]
      rw [List.nil_append, filterNoiseGo_acc ex neg mr cs (acc ++ [c]),
        filterNoiseGo_acc ex neg mr cs [c], List.append_assoc]

/-- The loop of `filter_noise` is a `List.filter` with the negated exclusion
test. -/
theorem filterNoise_eq_filter (ex neg : List String) (mr : ℚ) :
    ∀ l : List Company,
      filterNoise ex neg mr l = l.filter fun c => !shouldExcludeNoise ex neg mr c
  | [] => rfl
  | c :: cs => by
    by_cases h : shouldExcludeNoise ex neg mr c
    · simp only [filterNoise, filterNoiseGo, h, if_true, List.filter_cons, Bool.not_true,
        Bool.false_eq_true, if_false]
      exact filterNoise_eq_filter ex neg mr cs
    · simp only [filterNoise, filterNoiseGo, h, Bool.false_eq_true, if_false, List.filter_cons,
        Bool.not_false, if_true, List.nil_append]
      rw [filterNoiseGo_acc ex neg mr cs [c]]
      exact congrArg _ (filterNoise_eq_filter ex neg mr cs)

theorem string_data_ne_nil {t : String} (h : t ≠ "") : t.data ≠ [] := by
  intro hd
  apply h
  cases t with
  | mk d =>
    simp only at hd
    cases hd
    rfl

/-- A nonempty needle never occurs in the empty string. -/
theorem pyIn_empty_right {t : String} (h : t ≠ "") : pyIn t "" = false := by
  have hd := string_data_ne_nil h
  simp only [pyIn, containsSub]
  cases hl : t.data with
  | nil => exact absurd hl hd
  | cons a as => simp [List.isEmpty]

/-! ## Claim theorems: noise filter -/

/-- **C6** (amended): `filter_noise` keeps exactly the records for which none of
the three exclusion conditions hold — an excluded-category term occurring in
the lowercased `types` string, a negative keyword occurring in the lowercased
`name`, or the coerced review count lying strictly below the minimum — in
input order; and, provided no configured term is the empty string, a record
with empty `types` and empty `name` matches neither term check, so it is kept
iff its review count passes. -/
theorem filterNoise_keeps_exactly_nonexcluded
    (ex neg : List String) (mr : ℚ) (l : List Company)
    (hex : ∀ t ∈ ex, t ≠ "") (hneg : ∀ t ∈ neg, t ≠ "") :
    filterNoise ex neg mr l =
      (l.filter fun c =>
        !((ex.any fun t => pyIn t (strLower (getStr c.types)))
          || (neg.any fun t => pyIn t (strLower (getStr c.name)))
          || decide (toFloat (pyGet c.user_ratings_total) 0 < mr)))
    ∧ ∀ c ∈ l, getStr c.types = "" → getStr c.name = "" →
        (c ∈ filterNoise ex neg mr l ↔ ¬ toFloat (pyGet c.user_ratings_total) 0 < mr) := by
  have hchar := filterNoise_eq_filter ex neg mr l
  refine ⟨hchar, fun c hc htypes hname => ?_⟩
  have hlow : strLower (getStr c.types) = "" := by rw [htypes]; rfl
  have hlown : strLower (getStr c.name) = "" := by rw [hname]; rfl
  have hex0 : (ex.any fun t => pyIn t (strLower (getStr c.types))) = false := by
    rw [hlow]
    simp only [List.any_eq_false]
    exact fun t ht => by simp [pyIn_empty_right (hex t ht)]
  have hneg0 : (neg.any fun t => pyIn t (strLower (getStr c.name))) = false := by
    rw [hlown]
    simp only [List.any_eq_false]
    exact fun t ht => by simp [pyIn_empty_right (hneg t ht)]
  rw [hchar, List.mem_filter]
  simp [shouldExcludeNoise, hex0, hneg0, hc]

/-- Witness for C6 at a concrete configuration and record list. -/
theorem filterNoise_keeps_exactly_nonexcluded_witness :
    (filterNoise ["restaurant"] ["cafe"] 3
        [{ user_ratings_total := some (.vnum 5) }] =
      ([{ user_ratings_total := some (.vnum 5) }].filter fun c =>
        !((["restaurant"].any fun t => pyIn t (strLower (getStr c.types)))
          || (["cafe"].any fun t => pyIn t (strLower (getStr c.name)))
          || decide (toFloat (pyGet c.user_ratings_total) 0 < 3))))
    ∧ ∀ c ∈ [({ user_ratings_total := some (.vnum 5) } : Company)],
        getStr c.types = "" → getStr c.name = "" →
        (c ∈ filterNoise ["restaurant"] ["cafe"] 3 [{ user_ratings_total := some (.vnum 5) }] ↔
          ¬ toFloat (pyGet c.user_ratings_total) 0 < 3) :=
  filterNoise_keeps_exactly_nonexcluded ["restaurant"] ["cafe"] 3
    [{ user_ratings_total := some (.vnum 5) }] (by decide) (by decide)

/-- **C6 counterexample**: with the empty string configured as an
excluded-category term, a record with no `types`, no `name` and 5 reviews is
dropped (Python `'' in ''` is `True`) even though its review count passes the
minimum of 0 — so such a record is *not* kept or dropped solely by the
review-count condition, refuting the claim's final clause as stated. -/
theorem filterNoise_empty_term_drops_blank_record :
    filterNoise [""] [] 0 [{ user_ratings_total := some (.vnum 5) }] = []
    ∧ ¬ toFloat (pyGet ({ user_ratings_total := some (.vnum 5) } : Company).user_ratings_total) 0
        < 0 := by
  constructor
  · rfl
  · decide

/-- **C7**: a record whose review-count field is null or non-numeric is coerced
to 0 by `_to_float` (no exception: the embedding is a total function), and
whenever the configured minimum review count is positive, the record is
excluded by `filter_noise`'s review-count condition. -/
theorem filterNoise_nonNumeric_reviews_coerce_and_exclude
    (c : Company)
    (h : pyGet c.user_ratings_total = .vnone ∨ pyGet c.user_ratings_total = .vother)
    (ex neg : List String) (mr : ℚ) (hmr : 0 < mr) (l : List Company) :
    toFloat (pyGet c.user_ratings_total) 0 = 0 ∧ c ∉ filterNoise ex neg mr l := by
  have h0 : toFloat (pyGet c.user_ratings_total) 0 = 0 := by
    rcases h with h | h <;> rw [h] <;> rfl
  refine ⟨h0, fun hc => ?_⟩
  rw [filterNoise_eq_filter] at hc
  have hp := (List.mem_filter.mp hc).2
  simp [shouldExcludeNoise, h0, hmr] at hp

/-- Witness for C7 at a concrete record and configuration. -/
theorem filterNoise_nonNumeric_reviews_coerce_and_exclude_witness :
    toFloat (pyGet ({ user_ratings_total := some .vother } : Company).user_ratings_total) 0 = 0
    ∧ ({ user_ratings_total := some .vother } : Company) ∉
        filterNoise [] [] 3 [{ user_ratings_total := some .vother }] :=
  filterNoise_nonNumeric_reviews_coerce_and_exclude
    { user_ratings_total := some .vother } (Or.inr rfl) [] [] 3 (by norm_num)
    [{ user_ratings_total := some .vother }]

/-- **C9**: the noise filter is idempotent — filtering an already-filtered list
yields the same list. -/
theorem filterNoise_idempotent (ex neg : List String) (mr : ℚ) (l : List Company) :
    filterNoise ex neg mr (filterNoise ex neg mr l) = filterNoise ex neg mr l := by
  simp only [filterNoise_eq_filter, List.filter_filter]
  exact congrFun (congrArg _ (funext fun c => Bool.and_self _)) l

/-! ## Claim theorems: website-required scoring -/

/-- A scoring configuration with `website_required_weights['good_rating'] = 5`
(all other weights at their defaults). -/
def goodRating5Weights : WRWeights := { defaultWRWeights with good_rating := 5 }

/-- A record hitting exactly the good-rating branch: rating 3.0 with 5
reviews. -/
def goodRatingRecord : Company :=
  { rating := some (.vnum 3), user_ratings_total := some (.vnum 5) }

/-- **C1** (code bug witness): under a configuration whose `good_rating` weight
is 5, a record with rating 3.0 and 5 reviews gets `website_required_score = 5`
while its `score_breakdown` sums to 1, because filter_module.py:227 stores the
literal `1` in the breakdown where line 226 adds the configured weight to the
score — so the stored score does not equal the sum of the breakdown values. -/
theorem websiteRequiredScore_ne_breakdown_sum_at_bug_input :
    (calculateWebsiteRequiredScore goodRating5Weights defaultRatingThresholds []
        goodRatingRecord).website_required_score = 5
    ∧ (((calculateWebsiteRequiredScore goodRating5Weights defaultRatingThresholds []
        goodRatingRecord).score_breakdown).map Prod.snd).sum = 1
    ∧ (calculateWebsiteRequiredScore goodRating5Weights defaultRatingThresholds []
        goodRatingRecord).website_required_score ≠
      (((calculateWebsiteRequiredScore goodRating5Weights defaultRatingThresholds []
        goodRatingRecord).score_breakdown).map Prod.snd).sum := by
  with_unfolding_all decide

/-- The scoring function reads the target-state set only through the membership
test on the record's state. -/
theorem calculateWebsiteRequiredScore_state_congr (w : WRWeights) (t : RatingThresholds)
    (us1 us2 : List String) (c : Company)
    (h : stateIn us1 c.state = stateIn us2 c.state) :
    calculateWebsiteRequiredScore w t us1 c = calculateWebsiteRequiredScore w t us2 c := by
  simp only [calculateWebsiteRequiredScore]
  rw [h]

/-- The spec's end-to-end scenario record. -/
def acmeRecord : Company :=
  { name := some "Acme Medical Devices"
    types := some "establishment, business"
    rating := some (.vnum (21/5))
    user_ratings_total := some (.vnum 50)
    keyword_used := some "medical device"
    state := some "NY" }

/-- **C4**: for the Acme Medical Devices record under default weights and
thresholds, with `NY` in the recognized state set,
`calculate_website_required_score` yields score
7 = 3 (industry_match) + 2 (high_rating) + 1 (us_location) + 1 (business_type),
and `categorize_by_website_required_fit` then puts it in the high bucket with
`fit_category = 'High Fit'`. -/
theorem acme_scenario_scores_7_high_fit (us : List String) (h : us.contains "NY" = true) :
    (calculateWebsiteRequiredScore defaultWRWeights defaultRatingThresholds us
        acmeRecord).website_required_score = 7
    ∧ (calculateWebsiteRequiredScore defaultWRWeights defaultRatingThresholds us
        acmeRecord).score_breakdown =
      [("industry_match", 3), ("high_rating", 2), ("us_location", 1), ("business_type", 1)]
    ∧ categorizeByWebsiteRequiredFit 7 5 3
        [calculateWebsiteRequiredScore defaultWRWeights defaultRatingThresholds us acmeRecord] =
      ([setFit "High Fit"
          (calculateWebsiteRequiredScore defaultWRWeights defaultRatingThresholds us acmeRecord)],
        [], []) := by
  have hst : stateIn us acmeRecord.state = stateIn ["NY"] acmeRecord.state := by
    simp only [acmeRecord, stateIn]
    rw [h]
    decide
  rw [calculateWebsiteRequiredScore_state_congr defaultWRWeights defaultRatingThresholds us
    ["NY"] acmeRecord hst]
  with_unfolding_all decide

/-- Witness for C4 with the state set `["NY"]`. -/
theorem acme_scenario_scores_7_high_fit_witness :
    (["NY"].contains "NY" = true)
    ∧ ((calculateWebsiteRequiredScore defaultWRWeights defaultRatingThresholds ["NY"]
          acmeRecord).website_required_score = 7
      ∧ (calculateWebsiteRequiredScore defaultWRWeights defaultRatingThresholds ["NY"]
          acmeRecord).score_breakdown =
        [("industry_match", 3), ("high_rating", 2), ("us_location", 1), ("business_type", 1)]
      ∧ categorizeByWebsiteRequiredFit 7 5 3
          [calculateWebsiteRequiredScore defaultWRWeights defaultRatingThresholds ["NY"]
            acmeRecord] =
        ([setFit "High Fit"
            (calculateWebsiteRequiredScore defaultWRWeights defaultRatingThresholds ["NY"]
              acmeRecord)], [], [])) :=
  ⟨by decide, acme_scenario_scores_7_high_fit ["NY"] (by decide)⟩

/-! ## Claim theorems: legacy ICP admission scoring -/

/-- The claim's additive score expression, transcribed from the spec for
comparison with the source loop: location membership (+1), rating tier (+1 for
rating ≥ 3.5, else +0.5 for rating ≥ 3.0, only when a rating is present),
category validation (+1), and industry-keyword match (+2) else size-keyword
match (+1). -/
def specIcpScore (us : List String) (c : Company) : ℚ :=
  (if stateIn us c.state then (1 : ℚ) else 0)
  + (if pyGet c.rating ≠ PyVal.vnone then
      (if (7 : ℚ)/2 ≤ toFloat (pyGet c.rating) 0 then (1 : ℚ)
        else if (3 : ℚ) ≤ toFloat (pyGet c.rating) 0 then 1/2 else 0)
      else 0)
  + (if ["establishment", "business"].any (fun k => pyIn k (strLower (getStr c.types))) then
      (1 : ℚ) else 0)
  + (if ["medical", "manufacturing", "defense", "consulting"].any
        (fun k => pyIn k (strLower (getStr c.keyword_used))) then (2 : ℚ)
      else if ["small", "startup", "boutique", "specialized"].any
        (fun k => pyIn k (strLower (getStr c.keyword_used))) then 1
      else 0)

/-- Under the default weights, the source's sequential accumulation computes
the claim's additive score expression. -/
theorem icpScoreOf_default_eq (us : List String) (c : Company) :
    icpScoreOf defaultIcpWeights us c = specIcpScore us c := by
  simp only [icpScoreOf, defaultIcpWeights, specIcpScore]
  split_ifs <;> ring

theorem filterByIcpCriteriaGo_acc (w : IcpWeights) (minS : ℚ) (us : List String) :
    ∀ (l acc : List Company),
      filterByIcpCriteriaGo w minS us l acc = acc ++ filterByIcpCriteriaGo w minS us l []
  | [], acc => by simp [filterByIcpCriteriaGo]
  | c :: cs, acc => by
    by_cases h : minS ≤ icpScoreOf w us c
    · simp only [filterByIcpCriteriaGo, h, if_true, List.nil_append]
      have h1 := filterByIcpCriteriaGo_acc w minS us cs
        (acc ++ [{ c with icp_score := some (icpScoreOf w us c) }])
      have h2 := filterByIcpCriteriaGo_acc w minS us cs
        [{ c with icp_score := some (icpScoreOf w us c) }]
      rw [h1, h2, List.append_assoc]
    · simp only [filterByIcpCriteriaGo, h, if_false]
      exact filterByIcpCriteriaGo_acc w minS us cs acc

/-- **C8**: under the default ICP weights, `filter_by_icp_criteria` returns
exactly the records whose additive ICP score reaches the configured minimum,
in input order, each with `icp_score` set to that (possibly fractional)
score; records scoring below the gate are absent. -/
theorem filterByIcpCriteria_admits_exactly_scored (minS : ℚ) (us : List String) :
    ∀ l : List Company,
      filterByIcpCriteria defaultIcpWeights minS us l =
        l.filterMap fun c =>
          if minS ≤ specIcpScore us c then some { c with icp_score := some (specIcpScore us c) }
          else none
  | [] => rfl
  | c :: cs => by
    have he := icpScoreOf_default_eq us c
    by_cases h : minS ≤ icpScoreOf defaultIcpWeights us c
    · simp only [filterByIcpCriteria, filterByIcpCriteriaGo, h, if_true, List.nil_append,
        List.filterMap_cons]
      rw [filterByIcpCriteriaGo_acc defaultIcpWeights minS us cs
        [{ c with icp_score := some (icpScoreOf defaultIcpWeights us c) }]]
      rw [he] at h ⊢
      simp only [h, if_true]
      exact congrArg _ (filterByIcpCriteria_admits_exactly_scored minS us cs)
    · simp only [filterByIcpCriteria, filterByIcpCriteriaGo, h, if_false, List.filterMap_cons]
      rw [he] at h
      simp only [h, if_false]
      exact filterByIcpCriteria_admits_exactly_scored minS us cs

/-! ## Claim theorems: fit categorization -/

theorem setFit_score (f : String) (c : Company) :
    (setFit f c).website_required_score = c.website_required_score := rfl

/-- The three buckets of `categorize_by_website_required_fit` are the
`fit_category`-tagged filters of the input by the first matching threshold. -/
theorem categorizeByWebsiteRequiredFit_eq (hT mT loT : ℚ) :
    ∀ l : List Company,
      categorizeByWebsiteRequiredFit hT mT loT l =
        ((l.filter fun c => decide (hT ≤ c.website_required_score)).map (setFit "High Fit"),
          (l.filter fun c =>
            decide (¬ hT ≤ c.website_required_score ∧ mT ≤ c.website_required_score)).map
            (setFit "Medium Fit"),
          (l.filter fun c =>
            decide (¬ hT ≤ c.website_required_score ∧ ¬ mT ≤ c.website_required_score
              ∧ loT ≤ c.website_required_score)).map (setFit "Low Fit"))
  | [] => rfl
  | c :: cs => by
    have ih := categorizeByWebsiteRequiredFit_eq hT mT loT cs
    by_cases h1 : hT ≤ c.website_required_score
    · simp only [categorizeByWebsiteRequiredFit, ih, if_pos h1]
      rw [List.filter_cons_of_pos (by simpa using h1),
        List.filter_cons_of_neg (by simp [h1]),
        List.filter_cons_of_neg (by simp [h1]), List.map_cons]
    · by_cases h2 : mT ≤ c.website_required_score
      · simp only [categorizeByWebsiteRequiredFit, ih, if_neg h1, if_pos h2]
        rw [List.filter_cons_of_neg (by simp [h1]),
          List.filter_cons_of_pos (by simp [h1, h2]),
          List.filter_cons_of_neg (by simp [h2]), List.map_cons]
      · by_cases h3 : loT ≤ c.website_required_score
        · simp only [categorizeByWebsiteRequiredFit, ih, if_neg h1, if_neg h2, if_pos h3]
          rw [List.filter_cons_of_neg (by simp [h1]),
            List.filter_cons_of_neg (by simp [h2]),
            List.filter_cons_of_pos (by simp [h1, h2, h3]), List.map_cons]
        · simp only [categorizeByWebsiteRequiredFit, ih, if_neg h1, if_neg h2, if_neg h3]
          rw [List.filter_cons_of_neg (by simp [h1]),
            List.filter_cons_of_neg (by simp [h2]),
            List.filter_cons_of_neg (by simp [h3])]

/-- **C5**: with thresholds high ≥ medium ≥ low, categorization partitions the
records: the three buckets are the order-preserving, `fit_category`-tagged
filters of the input (first matching threshold wins, inclusive lower bounds);
every bucket member scores at least the low threshold (so records strictly
below it appear in none of the three lists); and every input record scoring at
least the low threshold lands, tagged, in exactly one bucket. -/
theorem categorizeByWebsiteRequiredFit_partition (hT mT loT : ℚ) (l : List Company)
    (hmh : mT ≤ hT) (hlm : loT ≤ mT) :
    (categorizeByWebsiteRequiredFit hT mT loT l =
      ((l.filter fun c => decide (hT ≤ c.website_required_score)).map (setFit "High Fit"),
        (l.filter fun c =>
          decide (¬ hT ≤ c.website_required_score ∧ mT ≤ c.website_required_score)).map
          (setFit "Medium Fit"),
        (l.filter fun c =>
          decide (¬ hT ≤ c.website_required_score ∧ ¬ mT ≤ c.website_required_score
            ∧ loT ≤ c.website_required_score)).map (setFit "Low Fit")))
    ∧ (∀ c ∈ (categorizeByWebsiteRequiredFit hT mT loT l).1
          ++ (categorizeByWebsiteRequiredFit hT mT loT l).2.1
          ++ (categorizeByWebsiteRequiredFit hT mT loT l).2.2,
        loT ≤ c.website_required_score)
    ∧ ∀ c ∈ l, loT ≤ c.website_required_score →
        ((setFit "High Fit" c ∈ (categorizeByWebsiteRequiredFit hT mT loT l).1
            ∧ setFit "Medium Fit" c ∉ (categorizeByWebsiteRequiredFit hT mT loT l).2.1
            ∧ setFit "Low Fit" c ∉ (categorizeByWebsiteRequiredFit hT mT loT l).2.2)
          ∨ (setFit "High Fit" c ∉ (categorizeByWebsiteRequiredFit hT mT loT l).1
            ∧ setFit "Medium Fit" c ∈ (categorizeByWebsiteRequiredFit hT mT loT l).2.1
            ∧ setFit "Low Fit" c ∉ (categorizeByWebsiteRequiredFit hT mT loT l).2.2)
          ∨ (setFit "High Fit" c ∉ (categorizeByWebsiteRequiredFit hT mT loT l).1
            ∧ setFit "Medium Fit" c ∉ (categorizeByWebsiteRequiredFit hT mT loT l).2.1
            ∧ setFit "Low Fit" c ∈ (categorizeByWebsiteRequiredFit hT mT loT l).2.2)) := by
  have hchar := categorizeByWebsiteRequiredFit_eq hT mT loT l
  refine ⟨hchar, ?_, ?_⟩
  · intro c hc
    rw [hchar] at hc
    simp only [List.mem_append, List.mem_map, List.mem_filter, decide_eq_true_eq] at hc
    rcases hc with (⟨d, ⟨_, hd⟩, hdc⟩ | ⟨d, ⟨_, hd⟩, hdc⟩) | ⟨d, ⟨_, hd⟩, hdc⟩ <;>
      rw [← hdc, setFit_score]
    · exact le_trans (le_trans hlm hmh) hd
    · exact le_trans hlm hd.2
    · exact hd.2.2
  · intro c hc hlo
    rw [hchar]
    simp only [List.mem_map, List.mem_filter, decide_eq_true_eq]
    have hsc : ∀ f d, setFit f d = setFit f c → d.website_required_score = c.website_required_score :=
      fun f d hfd => by
        have := congrArg Company.website_required_score hfd
        rwa [setFit_score, setFit_score] at this
    by_cases h1 : hT ≤ c.website_required_score
    · refine Or.inl ⟨⟨c, ⟨hc, h1⟩, rfl⟩, ?_, ?_⟩
      · rintro ⟨d, ⟨_, hd, _⟩, hdc⟩
        exact hd (hsc _ _ hdc ▸ h1)
      · rintro ⟨d, ⟨_, hd, _, _⟩, hdc⟩
        exact hd (hsc _ _ hdc ▸ h1)
    · by_cases h2 : mT ≤ c.website_required_score
      · refine Or.inr (Or.inl ⟨?_, ⟨c, ⟨hc, h1, h2⟩, rfl⟩, ?_⟩)
        · rintro ⟨d, ⟨_, hd⟩, hdc⟩
          exact h1 (hsc _ _ hdc ▸ hd)
        · rintro ⟨d, ⟨_, _, hd, _⟩, hdc⟩
          exact hd (hsc _ _ hdc ▸ h2)
      · refine Or.inr (Or.inr ⟨?_, ?_, ⟨c, ⟨hc, h1, h2, hlo⟩, rfl⟩⟩)
        · rintro ⟨d, ⟨_, hd⟩, hdc⟩
          exact h1 (hsc _ _ hdc ▸ hd)
        · rintro ⟨d, ⟨_, _, hd⟩, hdc⟩
          exact h2 (hsc _ _ hdc ▸ hd)

/-- A sample scored list: one high-scoring record and one below every
threshold. -/
def catSampleList : List Company :=
  [{ website_required_score := 8 }, { website_required_score := 1 }]

/-- Witness for C5 at thresholds 7/5/3 on `catSampleList`. -/
theorem categorizeByWebsiteRequiredFit_partition_witness :
    ((5 : ℚ) ≤ 7 ∧ (3 : ℚ) ≤ 5)
    ∧ ((categorizeByWebsiteRequiredFit 7 5 3 catSampleList =
        ((catSampleList.filter fun c => decide ((7:ℚ) ≤ c.website_required_score)).map
            (setFit "High Fit"),
          (catSampleList.filter fun c =>
            decide (¬ (7:ℚ) ≤ c.website_required_score ∧ (5:ℚ) ≤ c.website_required_score)).map
            (setFit "Medium Fit"),
          (catSampleList.filter fun c =>
            decide (¬ (7:ℚ) ≤ c.website_required_score ∧ ¬ (5:ℚ) ≤ c.website_required_score
              ∧ (3:ℚ) ≤ c.website_required_score)).map (setFit "Low Fit")))
      ∧ (∀ c ∈ (categorizeByWebsiteRequiredFit 7 5 3 catSampleList).1
            ++ (categorizeByWebsiteRequiredFit 7 5 3 catSampleList).2.1
            ++ (categorizeByWebsiteRequiredFit 7 5 3 catSampleList).2.2,
          (3 : ℚ) ≤ c.website_required_score)
      ∧ ∀ c ∈ catSampleList, (3 : ℚ) ≤ c.website_required_score →
          ((setFit "High Fit" c ∈ (categorizeByWebsiteRequiredFit 7 5 3 catSampleList).1
              ∧ setFit "Medium Fit" c ∉ (categorizeByWebsiteRequiredFit 7 5 3 catSampleList).2.1
              ∧ setFit "Low Fit" c ∉ (categorizeByWebsiteRequiredFit 7 5 3 catSampleList).2.2)
            ∨ (setFit "High Fit" c ∉ (categorizeByWebsiteRequiredFit 7 5 3 catSampleList).1
              ∧ setFit "Medium Fit" c ∈ (categorizeByWebsiteRequiredFit 7 5 3 catSampleList).2.1
              ∧ setFit "Low Fit" c ∉ (categorizeByWebsiteRequiredFit 7 5 3 catSampleList).2.2)
            ∨ (setFit "High Fit" c ∉ (categorizeByWebsiteRequiredFit 7 5 3 catSampleList).1
              ∧ setFit "Medium Fit" c ∉ (categorizeByWebsiteRequiredFit 7 5 3 catSampleList).2.1
              ∧ setFit "Low Fit" c ∈
                  (categorizeByWebsiteRequiredFit 7 5 3 catSampleList).2.2))) :=
  ⟨⟨by norm_num, by norm_num⟩,
    categorizeByWebsiteRequiredFit_partition 7 5 3 catSampleList (by norm_num) (by norm_num)⟩

/-! ## Claim theorems: LLM response field parsing -/

theorem parseStep_fit_of_not (acc : AIFields) (line : String)
    (h : pyStartsWith (strTrim line) "ai_fit_category:" = false) :
    (parseStep acc line).ai_fit_category = acc.ai_fit_category := by
  simp only [parseStep, h, Bool.false_eq_true, if_false]
  split_ifs <;> rfl

theorem parseStep_reasoning_of_not (acc : AIFields) (line : String)
    (h : pyStartsWith (strTrim line) "ai_reasoning:" = false) :
    (parseStep acc line).ai_reasoning = acc.ai_reasoning := by
  simp only [parseStep, h, Bool.false_eq_true, if_false]
  split_ifs <;> rfl

theorem parseStep_people_of_not (acc : AIFields) (line : String)
    (h : pyStartsWith (strTrim line) "ai_people_assessment:" = false) :
    (parseStep acc line).ai_people_assessment = acc.ai_people_assessment := by
  simp only [parseStep, h, Bool.false_eq_true, if_false]
  split_ifs <;> rfl

theorem parseStep_revenue_of_not (acc : AIFields) (line : String)
    (h : pyStartsWith (strTrim line) "ai_revenue_assessment:" = false) :
    (parseStep acc line).ai_revenue_assessment = acc.ai_revenue_assessment := by
  simp only [parseStep, h, Bool.false_eq_true, if_false]
  split_ifs <;> rfl

theorem foldl_parseStep_fit_none :
    ∀ (lines : List String) (acc : AIFields),
      (∀ L ∈ lines, pyStartsWith (strTrim L) "ai_fit_category:" = false) →
      (lines.foldl parseStep acc).ai_fit_category = acc.ai_fit_category
  | [], _, _ => rfl
  | L :: ls, acc, h => by
    rw [List.foldl_cons, foldl_parseStep_fit_none ls (parseStep acc L)
      fun x hx => h x (List.mem_cons_of_mem L hx)]
    exact parseStep_fit_of_not acc L (h L (List.mem_cons_self L ls))

theorem foldl_parseStep_reasoning_none :
    ∀ (lines : List String) (acc : AIFields),
      (∀ L ∈ lines, pyStartsWith (strTrim L) "ai_reasoning:" = false) →
      (lines.foldl parseStep acc).ai_reasoning = acc.ai_reasoning
  | [], _, _ => rfl
  | L :: ls, acc, h => by
    rw [List.foldl_cons, foldl_parseStep_reasoning_none ls (parseStep acc L)
      fun x hx => h x (List.mem_cons_of_mem L hx)]
    exact parseStep_reasoning_of_not acc L (h L (List.mem_cons_self L ls))

theorem foldl_parseStep_people_none :
    ∀ (lines : List String) (acc : AIFields),
      (∀ L ∈ lines, pyStartsWith (strTrim L) "ai_people_assessment:" = false) →
      (lines.foldl parseStep acc).ai_people_assessment = acc.ai_people_assessment
  | [], _, _ => rfl
  | L :: ls, acc, h => by
    rw [List.foldl_cons, foldl_parseStep_people_none ls (parseStep acc L)
      fun x hx => h x (List.mem_cons_of_mem L hx)]
    exact parseStep_people_of_not acc L (h L (List.mem_cons_self L ls))

theorem foldl_parseStep_revenue_none :
    ∀ (lines : List String) (acc : AIFields),
      (∀ L ∈ lines, pyStartsWith (strTrim L) "ai_revenue_assessment:" = false) →
      (lines.foldl parseStep acc).ai_revenue_assessment = acc.ai_revenue_assessment
  | [], _, _ => rfl
  | L :: ls, acc, h => by
    rw [List.foldl_cons, foldl_parseStep_revenue_none ls (parseStep acc L)
      fun x hx => h x (List.mem_cons_of_mem L hx)]
    exact parseStep_revenue_of_not acc L (h L (List.mem_cons_self L ls))

/-- **C2** (amended): for every *nonempty* input text — whatever its lines, in
whatever order — the parser (a total function, so it never raises) returns a
mapping containing all four fields, and any field whose labeled line never
appears gets its documented default (`Unknown`, `Not evaluated`,
`Not enough data`, `Unknown` respectively). -/
theorem parseAIEvaluationFields_nonempty_complete (text : String) (h : text ≠ "") :
    ((parseAIEvaluationFields text).ai_fit_category.isSome = true
      ∧ (parseAIEvaluationFields text).ai_reasoning.isSome = true
      ∧ (parseAIEvaluationFields text).ai_people_assessment.isSome = true
      ∧ (parseAIEvaluationFields text).ai_revenue_assessment.isSome = true)
    ∧ ((∀ L ∈ splitLines text, pyStartsWith (strTrim L) "ai_fit_category:" = false) →
        (parseAIEvaluationFields text).ai_fit_category = some "Unknown")
    ∧ ((∀ L ∈ splitLines text, pyStartsWith (strTrim L) "ai_reasoning:" = false) →
        (parseAIEvaluationFields text).ai_reasoning = some "Not evaluated")
    ∧ ((∀ L ∈ splitLines text, pyStartsWith (strTrim L) "ai_people_assessment:" = false) →
        (parseAIEvaluationFields text).ai_people_assessment = some "Not enough data")
    ∧ ((∀ L ∈ splitLines text, pyStartsWith (strTrim L) "ai_revenue_assessment:" = false) →
        (parseAIEvaluationFields text).ai_revenue_assessment = some "Unknown") := by
  simp only [parseAIEvaluationFields, if_neg h]
  refine ⟨⟨rfl, rfl, rfl, rfl⟩, ?_, ?_, ?_, ?_⟩
  · intro hall
    rw [foldl_parseStep_fit_none (splitLines text) {} hall]
    rfl
  · intro hall
    rw [foldl_parseStep_reasoning_none (splitLines text) {} hall]
    rfl
  · intro hall
    rw [foldl_parseStep_people_none (splitLines text) {} hall]
    rfl
  · intro hall
    rw [foldl_parseStep_revenue_none (splitLines text) {} hall]
    rfl

/-- Witness for C2 on the malformed one-line input `"hello"`. -/
theorem parseAIEvaluationFields_nonempty_complete_witness :
    ("hello" : String) ≠ ""
    ∧ (((parseAIEvaluationFields "hello").ai_fit_category.isSome = true
        ∧ (parseAIEvaluationFields "hello").ai_reasoning.isSome = true
        ∧ (parseAIEvaluationFields "hello").ai_people_assessment.isSome = true
        ∧ (parseAIEvaluationFields "hello").ai_revenue_assessment.isSome = true)
      ∧ ((∀ L ∈ splitLines "hello", pyStartsWith (strTrim L) "ai_fit_category:" = false) →
          (parseAIEvaluationFields "hello").ai_fit_category = some "Unknown")
      ∧ ((∀ L ∈ splitLines "hello", pyStartsWith (strTrim L) "ai_reasoning:" = false) →
          (parseAIEvaluationFields "hello").ai_reasoning = some "Not evaluated")
      ∧ ((∀ L ∈ splitLines "hello", pyStartsWith (strTrim L) "ai_people_assessment:" = false) →
          (parseAIEvaluationFields "hello").ai_people_assessment = some "Not enough data")
      ∧ ((∀ L ∈ splitLines "hello", pyStartsWith (strTrim L) "ai_revenue_assessment:" = false) →
          (parseAIEvaluationFields "hello").ai_revenue_assessment = some "Unknown")) :=
  ⟨by decide, parseAIEvaluationFields_nonempty_complete "hello" (by decide)⟩

/-- **C2 counterexample**: on the empty string the parser returns the *empty*
mapping — none of the four fields is present, refuting the claim that every
input (including the empty string) yields a mapping containing all four fields
with defaults. -/
theorem parseAIEvaluationFields_empty_has_no_fields :
    (parseAIEvaluationFields "").ai_fit_category = none
    ∧ (parseAIEvaluationFields "").ai_reasoning = none
    ∧ (parseAIEvaluationFields "").ai_people_assessment = none
    ∧ (parseAIEvaluationFields "").ai_revenue_assessment = none :=
  ⟨rfl, rfl, rfl, rfl⟩

/-- **C10**: the parser's label stripping uses `str.replace`, which removes all
occurrences of the label, not only the leading prefix: on the line
`'ai_reasoning: see ai_reasoning: above'` the stored value is `'see  above'`
(inner occurrence deleted too), not the line minus its leading label. -/
theorem parseAIEvaluationFields_removes_inner_label :
    (parseAIEvaluationFields "ai_reasoning: see ai_reasoning: above").ai_reasoning
      = some "see  above"
    ∧ (parseAIEvaluationFields "ai_reasoning: see ai_reasoning: above").ai_reasoning
      ≠ some "see ai_reasoning: above" := by
  decide

/-! ## Claim theorems: ranking sort -/

theorem keyGE_refl (a : ℕ × ℚ) : keyGE a a := Or.inr ⟨rfl, le_refl _⟩

theorem keyGE_total (a b : ℕ × ℚ) : keyGE a b ∨ keyGE b a := by
  rcases lt_trichotomy a.1 b.1 with h | h | h
  · exact Or.inr (Or.inl h)
  · rcases le_total b.2 a.2 with h2 | h2
    · exact Or.inl (Or.inr ⟨h, h2⟩)
    · exact Or.inr (Or.inr ⟨h.symm, h2⟩)
  · exact Or.inl (Or.inl h)

theorem keyGE_trans {a b c : ℕ × ℚ} (hab : keyGE a b) (hbc : keyGE b c) : keyGE a c := by
  rcases hab with hab | ⟨hab1, hab2⟩
  · rcases hbc with hbc | ⟨hbc1, hbc2⟩
    · exact Or.inl (lt_trans hbc hab)
    · exact Or.inl (hbc1 ▸ hab)
  · rcases hbc with hbc | ⟨hbc1, hbc2⟩
    · exact Or.inl (hab1 ▸ hbc)
    · exact Or.inr ⟨hab1.trans hbc1, le_trans hbc2 hab2⟩

theorem mem_insertDesc (x : Company) :
    ∀ (l : List Company) (z : Company), z ∈ insertDesc x l ↔ z = x ∨ z ∈ l
  | [], z => by simp [insertDesc]
  | y :: ys, z => by
    by_cases h : keyGE (sortKey x) (sortKey y)
    · simp only [insertDesc, if_pos h, List.mem_cons]
    · simp only [insertDesc, if_neg h, List.mem_cons, mem_insertDesc x ys z]
      tauto

theorem pairwise_insertDesc (x : Company) (l : List Company)
    (hl : l.Pairwise fun a b => keyGE (sortKey a) (sortKey b)) :
    (insertDesc x l).Pairwise fun a b => keyGE (sortKey a) (sortKey b) := by
  induction l with
  | nil => simp [insertDesc]
  | cons y ys ih =>
    rcases List.pairwise_cons.mp hl with ⟨hy, hys⟩
    by_cases h : keyGE (sortKey x) (sortKey y)
    · rw [insertDesc, if_pos h]
      refine List.pairwise_cons.mpr ⟨?_, hl⟩
      intro z hz
      rcases List.mem_cons.mp hz with rfl | hz2
      · exact h
      · exact keyGE_trans h (hy z hz2)
    · rw [insertDesc, if_neg h]
      refine List.pairwise_cons.mpr ⟨?_, ih hys⟩
      intro z hz
      rcases (mem_insertDesc x ys z).mp hz with rfl | hz2
      · exact (keyGE_total _ (sortKey y)).resolve_left h
      · exact hy z hz2

theorem sortByFitThenRating_pairwise :
    ∀ l : List Company,
      (sortByFitThenRating l).Pairwise fun a b => keyGE (sortKey a) (sortKey b)
  | [] => List.Pairwise.nil
  | x :: xs => pairwise_insertDesc x _ (sortByFitThenRating_pairwise xs)

theorem filter_insertDesc (x : Company) (k : ℕ × ℚ) :
    ∀ l : List Company,
      (insertDesc x l).filter (fun c => decide (sortKey c = k)) =
        if sortKey x = k then x :: l.filter (fun c => decide (sortKey c = k))
        else l.filter (fun c => decide (sortKey c = k))
  | [] => by
    by_cases hx : sortKey x = k
    · rw [if_pos hx, insertDesc, List.filter_cons_of_pos (by simpa using hx)]
    · rw [if_neg hx, insertDesc, List.filter_cons_of_neg (by simpa using hx)]
  | y :: ys => by
    by_cases h : keyGE (sortKey x) (sortKey y)
    · rw [insertDesc, if_pos h]
      by_cases hx : sortKey x = k
      · rw [if_pos hx, List.filter_cons_of_pos (by simpa using hx)]
      · rw [if_neg hx, List.filter_cons_of_neg (by simpa using hx)]
    · rw [insertDesc, if_neg h]
      have hyne : sortKey y ≠ sortKey x := by
        intro he
        exact h (by rw [he]; exact keyGE_refl _)
      by_cases hy : sortKey y = k
      · have hx : ¬ sortKey x = k := fun hx => hyne (hy.trans hx.symm)
        rw [List.filter_cons_of_pos (by simpa using hy), filter_insertDesc x k ys, if_neg hx,
          if_neg hx, List.filter_cons_of_pos (by simpa using hy)]
      · by_cases hx : sortKey x = k
        · rw [List.filter_cons_of_neg (by simpa using hy), filter_insertDesc x k ys, if_pos hx,
            if_pos hx, List.filter_cons_of_neg (by simpa using hy)]
        · rw [List.filter_cons_of_neg (by simpa using hy), filter_insertDesc x k ys, if_neg hx,
            if_neg hx, List.filter_cons_of_neg (by simpa using hy)]

theorem sortByFitThenRating_filter_key (k : ℕ × ℚ) :
    ∀ l : List Company,
      (sortByFitThenRating l).filter (fun c => decide (sortKey c = k)) =
        l.filter (fun c => decide (sortKey c = k))
  | [] => rfl
  | x :: xs => by
    simp only [sortByFitThenRating]
    rw [filter_insertDesc x k (sortByFitThenRating xs)]
    by_cases hx : sortKey x = k
    · rw [if_pos hx, sortByFitThenRating_filter_key k xs,
        List.filter_cons_of_pos (by simpa using hx)]
    · rw [if_neg hx, sortByFitThenRating_filter_key k xs,
        List.filter_cons_of_neg (by simpa using hx)]

theorem insertDesc_perm (x : Company) :
    ∀ l : List Company, List.Perm (insertDesc x l) (x :: l)
  | [] => List.Perm.refl _
  | y :: ys => by
    by_cases h : keyGE (sortKey x) (sortKey y)
    · rw [insertDesc, if_pos h]
    · rw [insertDesc, if_neg h]
      exact ((insertDesc_perm x ys).cons y).trans (List.Perm.swap x y ys)

theorem sortByFitThenRating_perm :
    ∀ l : List Company, List.Perm (sortByFitThenRating l) l
  | [] => List.Perm.refl _
  | x :: xs =>
    (insertDesc_perm x (sortByFitThenRating xs)).trans
      ((sortByFitThenRating_perm xs).cons x)

/-- **C3**: the ranking applied before export (the stable descending sort by
fit ordinal then rating of ModularProspectingModel1.py:772-775) is a
permutation of the input that is monotonic — for any record A appearing before
a record B in the output, A's fit ordinal is strictly greater than B's, or the
ordinals are equal and A's rating (absent treated as 0) is at least B's — and
stable: for every sort key, the records carrying that key appear in the output
in exactly their input order.  The hypothesis restricts to inputs whose
present ratings are numeric, which is where the source's key comparison is
defined. -/
theorem sortByFitThenRating_monotone_stable (l : List Company)
    (_hnum : ∀ c ∈ l, c.rating = none ∨ ∃ q, c.rating = some (PyVal.vnum q)) :
    (sortByFitThenRating l).Pairwise (fun a b =>
        fitOrdinal b < fitOrdinal a
          ∨ (fitOrdinal a = fitOrdinal b ∧ ratingKey b ≤ ratingKey a))
    ∧ (∀ k : ℕ × ℚ, (sortByFitThenRating l).filter (fun c => decide (sortKey c = k)) =
        l.filter (fun c => decide (sortKey c = k)))
    ∧ List.Perm (sortByFitThenRating l) l :=
  ⟨sortByFitThenRating_pairwise l, fun k => sortByFitThenRating_filter_key k l,
    sortByFitThenRating_perm l⟩

/-- A sample list for the C3 witness: two records sharing the Medium ordinal
(stability pair) and one High record. -/
def sortSampleList : List Company :=
  [{ ai_fit_category := some "Medium", name := some "first" },
    { ai_fit_category := some "Medium", name := some "second" },
    { ai_fit_category := some "High" }]

/-- Witness for C3 on `sortSampleList`. -/
theorem sortByFitThenRating_monotone_stable_witness :
    (∀ c ∈ sortSampleList, c.rating = none ∨ ∃ q, c.rating = some (PyVal.vnum q))
    ∧ ((sortByFitThenRating sortSampleList).Pairwise (fun a b =>
          fitOrdinal b < fitOrdinal a
            ∨ (fitOrdinal a = fitOrdinal b ∧ ratingKey b ≤ ratingKey a))
      ∧ (∀ k : ℕ × ℚ,
          (sortByFitThenRating sortSampleList).filter (fun c => decide (sortKey c = k)) =
            sortSampleList.filter (fun c => decide (sortKey c = k)))
      ∧ List.Perm (sortByFitThenRating sortSampleList) sortSampleList) :=
  have hr : ∀ c ∈ sortSampleList, c.rating = none ∨ ∃ q, c.rating = some (PyVal.vnum q) :=
    fun c hc => by fin_cases hc <;> exact Or.inl rfl
  ⟨hr, sortByFitThenRating_monotone_stable sortSampleList hr⟩

end Prospect
